import Mathlib

/-!
Verification development for the `tl/types.rs` data-model and codec layer of
tonlib-rs: the composite transaction-identifier codec (parsing, canonical
formatting, hex and base64 hash decoding) and the serde-style wire codecs of
the tagged unions and records.

Strings are modelled as lists of Unicode code points, bytes as naturals
below 256, and Rust `i64` as mathematical integers constrained to the
64-bit signed range.
-/

/-- View of a Lean string literal in the model. -/
def strOf (s : String) : List Nat := s.toList.map Char.toNat

/-- Rust i64 range. -/
def isI64 (n : Int) : Prop := -(2 ^ 63) ≤ n ∧ n < 2 ^ 63

instance (n : Int) : Decidable (isI64 n) := by unfold isI64; infer_instance

/-- Rust i32 range. -/
def isI32 (n : Int) : Prop := -(2 ^ 31) ≤ n ∧ n < 2 ^ 31

instance (n : Int) : Decidable (isI32 n) := by unfold isI32; infer_instance

/-- Byte sequences are lists of naturals below 256. -/
def bytesOk (bs : List Nat) : Prop := ∀ b ∈ bs, b < 256

instance (bs : List Nat) : Decidable (bytesOk bs) := by unfold bytesOk; infer_instance

/-- Rust `str::split` on a one-character pattern: all separator occurrences
split, and empty parts are kept. -/
def splitCh (sep : Nat) : List Nat → List (List Nat)
  | [] => [[]]
  | c :: rest =>
    if c = sep then [] :: splitCh sep rest
    else
      match splitCh sep rest with
      | [] => [[c]]
      | p :: ps => (c :: p) :: ps

/-- Decimal digit value of a code point, if it is one. -/
def digitVal (c : Nat) : Option Nat :=
  if 48 ≤ c ∧ c ≤ 57 then some (c - 48) else none

/-- Accumulating decimal parser: fails on the first non-digit. -/
def parseDigitsAux (acc : Nat) : List Nat → Option Nat
  | [] => some acc
  | c :: rest =>
    match digitVal c with
    | some d => parseDigitsAux (acc * 10 + d) rest
    | none => none

/-- Parse a nonempty run of decimal digits. -/
def parseDigits (s : List Nat) : Option Nat :=
  if s = [] then none else parseDigitsAux 0 s

/-- Rust `i64::from_str`: optional sign, at least one digit, range-checked. -/
def parseI64 (s : List Nat) : Option Int :=
  match s with
  | [] => none
  | c :: rest =>
    if c = 43 then
      (parseDigits rest).bind fun n => if (n : Int) < 2 ^ 63 then some (n : Int) else none
    else if c = 45 then
      (parseDigits rest).bind fun n => if (n : Int) ≤ 2 ^ 63 then some (-(n : Int)) else none
    else
      (parseDigits (c :: rest)).bind fun n => if (n : Int) < 2 ^ 63 then some (n : Int) else none

/-- Decimal representation of a natural number (Rust Display). -/
def natRepr (n : Nat) : List Nat :=
  if n = 0 then [48] else (Nat.digits 10 n).reverse.map (fun d => 48 + d)

/-- Decimal representation of an integer (Rust Display for i64). -/
def intRepr (i : Int) : List Nat :=
  if i < 0 then 45 :: natRepr i.natAbs else natRepr i.natAbs

/-- Hex digit value, case-insensitive (hex crate). -/
def hexDigitVal (c : Nat) : Option Nat :=
  if 48 ≤ c ∧ c ≤ 57 then some (c - 48)
  else if 97 ≤ c ∧ c ≤ 102 then some (c - 87)
  else if 65 ≤ c ∧ c ≤ 70 then some (c - 55)
  else none

/-- hex::decode — consumes hex digit pairs; fails on odd length or on any
non-hex character. -/
def hexDecode : List Nat → Option (List Nat)
  | [] => some []
  | [_] => none
  | c1 :: c2 :: rest =>
    (hexDigitVal c1).bind fun hi =>
      (hexDigitVal c2).bind fun lo =>
        (hexDecode rest).map fun bs => (hi * 16 + lo) :: bs

/-- Lowercase hex digit character. -/
def hexDigitChar (d : Nat) : Nat := if d < 10 then 48 + d else 87 + d

/-- hex::encode — lowercase hex. -/
def hexEncode : List Nat → List Nat
  | [] => []
  | b :: bs => hexDigitChar (b / 16) :: hexDigitChar (b % 16) :: hexEncode bs

/-- base64 alphabet character of a 6-bit value, standard or url-safe. -/
def b64Char (url : Bool) (d : Nat) : Nat :=
  if d < 26 then 65 + d
  else if d < 52 then 97 + (d - 26)
  else if d < 62 then 48 + (d - 52)
  else if d = 62 then (if url then 45 else 43)
  else (if url then 95 else 47)

/-- Value of a base64 alphabet character as six bits, if any. -/
def b64Val (url : Bool) (c : Nat) : Option Nat :=
  if 65 ≤ c ∧ c ≤ 90 then some (c - 65)
  else if 97 ≤ c ∧ c ≤ 122 then some (c - 71)
  else if 48 ≤ c ∧ c ≤ 57 then some (c + 4)
  else if c = (if url then 45 else 43) then some 62
  else if c = (if url then 95 else 47) then some 63
  else none

/-- Body characters of a base64 encoding (padding excluded). -/
def b64EncodeChunks (url : Bool) : List Nat → List Nat
  | [] => []
  | [b1] => [b64Char url (b1 / 4), b64Char url (b1 % 4 * 16)]
  | [b1, b2] =>
    [b64Char url (b1 / 4), b64Char url (b1 % 4 * 16 + b2 / 16), b64Char url (b2 % 16 * 4)]
  | b1 :: b2 :: b3 :: rest =>
    b64Char url (b1 / 4) :: b64Char url (b1 % 4 * 16 + b2 / 16) ::
      b64Char url (b2 % 16 * 4 + b3 / 64) :: b64Char url (b3 % 64) :: b64EncodeChunks url rest

/-- base64::encode_config with the given alphabet and padding setting. -/
def b64Encode (url pad : Bool) (bs : List Nat) : List Nat :=
  b64EncodeChunks url bs ++ (if pad then List.replicate ((3 - bs.length % 3) % 3) 61 else [])

/-- Map base64 characters to 6-bit values; fails on any foreign character
(including the padding character). -/
def b64Syms (url : Bool) : List Nat → Option (List Nat)
  | [] => some []
  | c :: rest => (b64Val url c).bind fun d => (b64Syms url rest).map fun ds => d :: ds

/-- Reassemble bytes from 6-bit values. A lone trailing symbol and nonzero
trailing bits are rejected (decode_allow_trailing_bits is off). -/
def b64DecodeSyms : List Nat → Option (List Nat)
  | [] => some []
  | [_] => none
  | [d1, d2] => if d2 % 16 = 0 then some [d1 * 4 + d2 / 16] else none
  | [d1, d2, d3] =>
    if d3 % 4 = 0 then some [d1 * 4 + d2 / 16, d2 % 16 * 16 + d3 / 4] else none
  | d1 :: d2 :: d3 :: d4 :: rest =>
    (b64DecodeSyms rest).map fun bs =>
      (d1 * 4 + d2 / 16) :: (d2 % 16 * 16 + d3 / 4) :: (d3 % 4 * 64 + d4) :: bs

/-- Trailing padding characters removed. -/
def stripPad (s : List Nat) : List Nat := (s.reverse.dropWhile (fun c => c == 61)).reverse

/-- base64::decode_config (base64 0.11-0.13, the versions with this Config
API): the padding bit of the Config affects only encoding, so decoding
accepts canonical trailing padding or its absence whatever the flag says.
Trailing padding characters are stripped; when any are present they must
complete the final quantum (at most two, total length a multiple of four).
A padding character elsewhere, a lone leftover symbol, or nonzero trailing
bits fail. -/
def b64Decode (url _pad : Bool) (s : List Nat) : Option (List Nat) :=
  if s.length - (stripPad s).length = 0 ∨
      ((stripPad s).length + (s.length - (stripPad s).length)) % 4 = 0 ∧
        s.length - (stripPad s).length ≤ 2 then
    (b64Syms url (stripPad s)).bind b64DecodeSyms
  else none

/-- Error kinds of the identifier codec, one per failure site of the source. -/
inductive IdError where
  | malformedFormat
  | invalidLogicalTime
  | invalidHex
  | invalidBase64
  | invalidHashLength
deriving DecidableEq

/-- The composite transaction identifier: logical time and hash bytes. -/
structure InternalTransactionId where
  lt : Int
  hash : List Nat
deriving DecidableEq

/-- Sentinel: logical time zero and 32 zero bytes. -/
def NULL_TRANSACTION_ID : InternalTransactionId := ⟨0, List.replicate 32 0⟩

/-- Hash branch of from_lt_hash (the hash decoding heuristic): length 64
means hex; otherwise base64 with the url-safe alphabet exactly when a dash
or underscore occurs. The code sets the padding flag of the Config exactly
when the length is 44, but that flag only configures the encoder. -/
def decodeHash (s : List Nat) : Except IdError (List Nat) :=
  if s.length = 64 then
    match hexDecode s with
    | some bs => .ok bs
    | none => .error .invalidHex
  else
    match b64Decode (decide (45 ∈ s) || decide (95 ∈ s)) (decide (s.length = 44)) s with
    | some bs => .ok bs
    | none => .error .invalidBase64

/-- InternalTransactionId::from_lt_hash — decode the hash text, then require
exactly 32 bytes. -/
def InternalTransactionId.from_lt_hash (lt : Int) (s : List Nat) :
    Except IdError InternalTransactionId :=
  match decodeHash s with
  | .error e => .error e
  | .ok h => if h.length = 32 then .ok ⟨lt, h⟩ else .error .invalidHashLength

/-- InternalTransactionId::hash_string — lowercase hex of the hash. -/
def InternalTransactionId.hash_string (id : InternalTransactionId) : List Nat :=
  hexEncode id.hash

/-- InternalTransactionId::to_string — the canonical form lt, colon, hex. -/
def InternalTransactionId.to_string (id : InternalTransactionId) : List Nat :=
  intRepr id.lt ++ 58 :: id.hash_string

/-- FromStr for InternalTransactionId: split on every colon, require exactly
two parts, parse the logical time, then decode the hash. -/
def InternalTransactionId.from_str (s : List Nat) : Except IdError InternalTransactionId :=
  match splitCh 58 s with
  | [p0, p1] =>
    match parseI64 p0 with
    | some lt => InternalTransactionId.from_lt_hash lt p1
    | none => .error .invalidLogicalTime
  | _ => .error .malformedFormat

/-- JSON-like wire values: integer numbers, strings, booleans, null, arrays
and objects with string keys. -/
inductive Json where
  | num (n : Int)
  | str (s : List Nat)
  | bool (b : Bool)
  | null
  | arr (xs : List Json)
  | obj (fields : List (String × Json))

/-- Wire decode error kinds. -/
inductive DErr where
  | missingField
  | unknownDiscriminator
  | invalidNumber
  | invalidBase64
  | wrongType
deriving DecidableEq

/-- First binding of a key in an object field list. -/
def lookupKey (k : String) : List (String × Json) → Option Json
  | [] => none
  | (k2, v) :: rest => if k2 = k then some v else lookupKey k rest

/-- Field access on an object. -/
def Json.getField (j : Json) (k : String) : Option Json :=
  match j with
  | .obj fs => lookupKey k fs
  | _ => none

/-- Key list of an object. -/
def Json.keys (j : Json) : List String :=
  match j with
  | .obj fs => fs.map (fun f => f.1)
  | _ => []

/-- Required field: a missing key is a decode error. -/
def reqField (j : Json) (k : String) : Except DErr Json :=
  match j.getField k with
  | some v => .ok v
  | none => .error .missingField

/-- Discriminator extraction: the @type field must be present and a string. -/
def reqTag (j : Json) : Except DErr (List Nat) :=
  match j.getField "@type" with
  | some (.str ty) => .ok ty
  | some _ => .error .wrongType
  | none => .error .missingField

/-- serde i64 field decoding (plain numeric token). -/
def decodeI64 : Json → Except DErr Int
  | .num n => if isI64 n then .ok n else .error .invalidNumber
  | _ => .error .wrongType

/-- serde i32 field decoding (plain numeric token). -/
def decodeI32 : Json → Except DErr Int
  | .num n => if isI32 n then .ok n else .error .invalidNumber
  | _ => .error .wrongType

/-- serde bool field decoding. -/
def decodeBoolJ : Json → Except DErr Bool
  | .bool b => .ok b
  | _ => .error .wrongType

/-- serde String field decoding. -/
def decodeStrJ : Json → Except DErr (List Nat)
  | .str s => .ok s
  | _ => .error .wrongType

/-- serde_aux deserialize_number_from_string for i64: accepts a native
number or a quoted decimal numeral. -/
def numberFromString : Json → Except DErr Int
  | .num n => if isI64 n then .ok n else .error .invalidNumber
  | .str s =>
    match parseI64 s with
    | some n => .ok n
    | none => .error .invalidNumber
  | _ => .error .wrongType

/-- Base64Standard serde adapter: bytes decoded from a padded
standard-alphabet base64 string. -/
def decodeBytes : Json → Except DErr (List Nat)
  | .str s =>
    match b64Decode false true s with
    | some bs => .ok bs
    | none => .error .invalidBase64
  | _ => .error .wrongType

/-- Base64Standard serde adapter, encoding side. -/
def encodeBytes (bs : List Nat) : Json := .str (b64Encode false true bs)

/-- tonlib_api.tl line 44. -/
structure AccountAddress where
  account_address : List Nat
deriving DecidableEq

/-- tonlib_api.tl line 23. -/
inductive KeyStoreType where
  | Directory (directory : List Nat)
  | InMemory
deriving DecidableEq

/-- tonlib_api.tl line 67. -/
structure RWalletLimit where
  seconds : Int
  value : Int
deriving DecidableEq

/-- tonlib_api.tl line 68. -/
structure RWalletConfig where
  start_at : Int
  limits : List RWalletLimit
deriving DecidableEq

/-- tonlib_api.tl line 60. -/
structure PChanConfig where
  alice_public_key : List Nat
  alice_address : AccountAddress
  bob_public_key : List Nat
  bob_address : AccountAddress
  init_timeout : Int
  close_timeout : Int
  channel_id : Int
deriving DecidableEq

/-- tonlib_api.tl lines 81-83. -/
inductive PChanState where
  | Init (signed_a : Bool) (signed_b : Bool) (min_a : Int) (min_b : Int) (expire_at : Int)
      (a : Int) (b : Int)
  | Close (signed_a : Bool) (signed_b : Bool) (min_a : Int) (min_b : Int) (expire_at : Int)
      (a : Int) (b : Int)
  | Payout (a : Int) (b : Int)
deriving DecidableEq

/-- tonlib_api.tl lines 74-79. -/
inductive AccountState where
  | Raw (code : List Nat) (data : List Nat) (frozen_hash : List Nat)
  | WalletV3 (wallet_id : Int) (seqno : Int)
  | WalletHighloadV1 (wallet_id : Int) (seqno : Int)
  | WalletHighloadV2 (wallet_id : Int)
  | DNS (wallet_id : Int)
  | RWallet (wallet_id : Int) (seqno : Int) (unlocked_balance : Int) (config : RWalletConfig)
  | Uninited (frozen_hash : List Nat)
  | PChan (config : PChanConfig) (state : PChanState) (description : List Nat)
deriving DecidableEq

/-- tonlib_api.tl lines 93-94. -/
inductive SyncState where
  | Done
  | InProgress (from_seqno : Int) (to_seqno : Int) (current_seqno : Int)
deriving DecidableEq

/-- tonlib_api.tl lines 100-109. -/
inductive MsgData where
  | Raw (body : List Nat) (init_state : List Nat)
  | Text (text : List Nat)
  | DecryptedText (text : List Nat)
  | EncryptedText (text : List Nat)
deriving DecidableEq

/-- tonlib_api.tl lines 179-180. -/
inductive SmcMethodId where
  | Number (number : Int)
  | Name (name : List Nat)
deriving DecidableEq

/-- tonlib_api.tl line 54. -/
structure RawMessage where
  source : AccountAddress
  destination : AccountAddress
  value : Int
  fwd_fee : Int
  ihr_fee : Int
  created_lt : Int
  body_hash : List Nat
  msg_data : MsgData
deriving DecidableEq

/-- tonlib_api.tl line 55. -/
structure RawTransaction where
  utime : Int
  data : List Nat
  transaction_id : InternalTransactionId
  storage_fee : Int
  other_fee : Int
  in_msg : Option RawMessage
  out_msgs : List RawMessage
deriving DecidableEq

/-- Declared discriminator of a KeyStoreType variant. -/
def KeyStoreType.tag : KeyStoreType → List Nat
  | .Directory _ => strOf "keyStoreTypeDirectory"
  | .InMemory => strOf "keyStoreTypeInMemory"

/-- Declared discriminator of an AccountState variant. -/
def AccountState.tag : AccountState → List Nat
  | .Raw .. => strOf "raw.accountState"
  | .WalletV3 .. => strOf "wallet.v3.accountState"
  | .WalletHighloadV1 .. => strOf "wallet.highload.v1.accountState"
  | .WalletHighloadV2 .. => strOf "wallet.highload.v2.accountState"
  | .DNS .. => strOf "dns.accountState"
  | .RWallet .. => strOf "rwallet.accountState"
  | .Uninited .. => strOf "uninited.accountState"
  | .PChan .. => strOf "pchan.accountState"

/-- Declared discriminator of a PChanState variant. -/
def PChanState.tag : PChanState → List Nat
  | .Init .. => strOf "pchan.stateInit"
  | .Close .. => strOf "pchan.stateClose"
  | .Payout .. => strOf "pchan.statePayout"

/-- Declared discriminator of a SyncState variant. -/
def SyncState.tag : SyncState → List Nat
  | .Done => strOf "syncStateDone"
  | .InProgress .. => strOf "syncStateInProgress"

/-- Declared discriminator of a MsgData variant. -/
def MsgData.tag : MsgData → List Nat
  | .Raw .. => strOf "msg.dataRaw"
  | .Text _ => strOf "msg.dataText"
  | .DecryptedText _ => strOf "msg.dataDecryptedText"
  | .EncryptedText _ => strOf "msg.dataEncryptedText"

/-- Declared discriminator of an SmcMethodId variant. -/
def SmcMethodId.tag : SmcMethodId → List Nat
  | .Number _ => strOf "smc.methodIdNumber"
  | .Name _ => strOf "smc.methodIdName"

/-- Declared wire keys of a KeyStoreType variant. -/
def KeyStoreType.declaredKeys : KeyStoreType → List String
  | .Directory _ => ["@type", "directory"]
  | .InMemory => ["@type"]

/-- Declared wire keys of an AccountState variant. -/
def AccountState.declaredKeys : AccountState → List String
  | .Raw .. => ["@type", "code", "data", "frozen_hash"]
  | .WalletV3 .. => ["@type", "wallet_id", "seqno"]
  | .WalletHighloadV1 .. => ["@type", "wallet_id", "seqno"]
  | .WalletHighloadV2 .. => ["@type", "wallet_id"]
  | .DNS .. => ["@type", "wallet_id"]
  | .RWallet .. => ["@type", "wallet_id", "seqno", "unlocked_balance", "config"]
  | .Uninited .. => ["@type", "frozen_hash"]
  | .PChan .. => ["@type", "config", "state", "description"]

/-- Declared wire keys of a PChanState variant (note mixed-case names). -/
def PChanState.declaredKeys : PChanState → List String
  | .Init .. => ["@type", "signed_A", "signed_B", "min_A", "min_B", "expire_at", "A", "B"]
  | .Close .. => ["@type", "signed_A", "signed_B", "min_A", "min_B", "expire_at", "A", "B"]
  | .Payout .. => ["@type", "A", "B"]

/-- Declared wire keys of a SyncState variant. -/
def SyncState.declaredKeys : SyncState → List String
  | .Done => ["@type"]
  | .InProgress .. => ["@type", "from_seqno", "to_seqno", "current_seqno"]

/-- Declared wire keys of a MsgData variant. -/
def MsgData.declaredKeys : MsgData → List String
  | .Raw .. => ["@type", "body", "init_state"]
  | .Text _ => ["@type", "text"]
  | .DecryptedText _ => ["@type", "text"]
  | .EncryptedText _ => ["@type", "text"]

/-- Declared wire keys of an SmcMethodId variant. -/
def SmcMethodId.declaredKeys : SmcMethodId → List String
  | .Number _ => ["@type", "number"]
  | .Name _ => ["@type", "name"]

/-- Declared discriminators of the unions, in declaration order. -/
def keyStoreTypeTags : List (List Nat) :=
  [strOf "keyStoreTypeDirectory", strOf "keyStoreTypeInMemory"]

def accountStateTags : List (List Nat) :=
  [strOf "raw.accountState", strOf "wallet.v3.accountState",
   strOf "wallet.highload.v1.accountState", strOf "wallet.highload.v2.accountState",
   strOf "dns.accountState", strOf "rwallet.accountState", strOf "uninited.accountState",
   strOf "pchan.accountState"]

def pchanStateTags : List (List Nat) :=
  [strOf "pchan.stateInit", strOf "pchan.stateClose", strOf "pchan.statePayout"]

def syncStateTags : List (List Nat) := [strOf "syncStateDone", strOf "syncStateInProgress"]

def msgDataTags : List (List Nat) :=
  [strOf "msg.dataRaw", strOf "msg.dataText", strOf "msg.dataDecryptedText",
   strOf "msg.dataEncryptedText"]

def smcMethodIdTags : List (List Nat) := [strOf "smc.methodIdNumber", strOf "smc.methodIdName"]

/-- Serialize for KeyStoreType (internally tagged at key @type). -/
def encodeKeyStoreType : KeyStoreType → Json
  | .Directory d =>
    .obj [("@type", .str (strOf "keyStoreTypeDirectory")), ("directory", .str d)]
  | .InMemory => .obj [("@type", .str (strOf "keyStoreTypeInMemory"))]

/-- Deserialize for KeyStoreType. -/
def decodeKeyStoreType (j : Json) : Except DErr KeyStoreType := do
  let ty ← reqTag j
  if ty = strOf "keyStoreTypeDirectory" then do
    let d ← decodeStrJ (← reqField j "directory")
    .ok (.Directory d)
  else if ty = strOf "keyStoreTypeInMemory" then .ok .InMemory
  else .error .unknownDiscriminator

/-- Serialize for MsgData. -/
def encodeMsgData : MsgData → Json
  | .Raw body is =>
    .obj [("@type", .str (strOf "msg.dataRaw")), ("body", encodeBytes body),
      ("init_state", encodeBytes is)]
  | .Text t => .obj [("@type", .str (strOf "msg.dataText")), ("text", encodeBytes t)]
  | .DecryptedText t =>
    .obj [("@type", .str (strOf "msg.dataDecryptedText")), ("text", encodeBytes t)]
  | .EncryptedText t =>
    .obj [("@type", .str (strOf "msg.dataEncryptedText")), ("text", encodeBytes t)]

/-- Deserialize for MsgData. -/
def decodeMsgData (j : Json) : Except DErr MsgData := do
  let ty ← reqTag j
  if ty = strOf "msg.dataRaw" then do
    let body ← decodeBytes (← reqField j "body")
    let is ← decodeBytes (← reqField j "init_state")
    .ok (.Raw body is)
  else if ty = strOf "msg.dataText" then do
    let t ← decodeBytes (← reqField j "text")
    .ok (.Text t)
  else if ty = strOf "msg.dataDecryptedText" then do
    let t ← decodeBytes (← reqField j "text")
    .ok (.DecryptedText t)
  else if ty = strOf "msg.dataEncryptedText" then do
    let t ← decodeBytes (← reqField j "text")
    .ok (.EncryptedText t)
  else .error .unknownDiscriminator

/-- Serialize for SyncState. -/
def encodeSyncState : SyncState → Json
  | .Done => .obj [("@type", .str (strOf "syncStateDone"))]
  | .InProgress f t c =>
    .obj [("@type", .str (strOf "syncStateInProgress")), ("from_seqno", .num f),
      ("to_seqno", .num t), ("current_seqno", .num c)]

/-- Deserialize for SyncState. -/
def decodeSyncState (j : Json) : Except DErr SyncState := do
  let ty ← reqTag j
  if ty = strOf "syncStateDone" then .ok .Done
  else if ty = strOf "syncStateInProgress" then do
    let f ← decodeI32 (← reqField j "from_seqno")
    let t ← decodeI32 (← reqField j "to_seqno")
    let c ← decodeI32 (← reqField j "current_seqno")
    .ok (.InProgress f t c)
  else .error .unknownDiscriminator

/-- Serialize for SmcMethodId. -/
def encodeSmcMethodId : SmcMethodId → Json
  | .Number n => .obj [("@type", .str (strOf "smc.methodIdNumber")), ("number", .num n)]
  | .Name n => .obj [("@type", .str (strOf "smc.methodIdName")), ("name", .str n)]

/-- Deserialize for SmcMethodId. -/
def decodeSmcMethodId (j : Json) : Except DErr SmcMethodId := do
  let ty ← reqTag j
  if ty = strOf "smc.methodIdNumber" then do
    let n ← decodeI32 (← reqField j "number")
    .ok (.Number n)
  else if ty = strOf "smc.methodIdName" then do
    let n ← decodeStrJ (← reqField j "name")
    .ok (.Name n)
  else .error .unknownDiscriminator

/-- Serialize for PChanState: mixed-case wire names from the serde renames. -/
def encodePChanState : PChanState → Json
  | .Init sa sb ma mb ea a b =>
    .obj [("@type", .str (strOf "pchan.stateInit")), ("signed_A", .bool sa),
      ("signed_B", .bool sb), ("min_A", .num ma), ("min_B", .num mb),
      ("expire_at", .num ea), ("A", .num a), ("B", .num b)]
  | .Close sa sb ma mb ea a b =>
    .obj [("@type", .str (strOf "pchan.stateClose")), ("signed_A", .bool sa),
      ("signed_B", .bool sb), ("min_A", .num ma), ("min_B", .num mb),
      ("expire_at", .num ea), ("A", .num a), ("B", .num b)]
  | .Payout a b =>
    .obj [("@type", .str (strOf "pchan.statePayout")), ("A", .num a), ("B", .num b)]

/-- Deserialize for PChanState: requires the exact mixed-case wire names. -/
def decodePChanState (j : Json) : Except DErr PChanState := do
  let ty ← reqTag j
  if ty = strOf "pchan.stateInit" then do
    let sa ← decodeBoolJ (← reqField j "signed_A")
    let sb ← decodeBoolJ (← reqField j "signed_B")
    let ma ← decodeI64 (← reqField j "min_A")
    let mb ← decodeI64 (← reqField j "min_B")
    let ea ← decodeI64 (← reqField j "expire_at")
    let a ← decodeI64 (← reqField j "A")
    let b ← decodeI64 (← reqField j "B")
    .ok (.Init sa sb ma mb ea a b)
  else if ty = strOf "pchan.stateClose" then do
    let sa ← decodeBoolJ (← reqField j "signed_A")
    let sb ← decodeBoolJ (← reqField j "signed_B")
    let ma ← decodeI64 (← reqField j "min_A")
    let mb ← decodeI64 (← reqField j "min_B")
    let ea ← decodeI64 (← reqField j "expire_at")
    let a ← decodeI64 (← reqField j "A")
    let b ← decodeI64 (← reqField j "B")
    .ok (.Close sa sb ma mb ea a b)
  else if ty = strOf "pchan.statePayout" then do
    let a ← decodeI64 (← reqField j "A")
    let b ← decodeI64 (← reqField j "B")
    .ok (.Payout a b)
  else .error .unknownDiscriminator

/-- Serialize for AccountAddress. -/
def encodeAccountAddress (x : AccountAddress) : Json :=
  .obj [("account_address", .str x.account_address)]

/-- Deserialize for AccountAddress. -/
def decodeAccountAddress (j : Json) : Except DErr AccountAddress := do
  let a ← decodeStrJ (← reqField j "account_address")
  .ok ⟨a⟩

/-- Serialize for RWalletLimit. -/
def encodeRWalletLimit (x : RWalletLimit) : Json :=
  .obj [("seconds", .num x.seconds), ("value", .num x.value)]

/-- Deserialize for RWalletLimit (value uses number-from-string). -/
def decodeRWalletLimit (j : Json) : Except DErr RWalletLimit := do
  let s ← decodeI32 (← reqField j "seconds")
  let v ← numberFromString (← reqField j "value")
  .ok ⟨s, v⟩

/-- Element-wise list decoding. -/
def decodeList {α : Type} (f : Json → Except DErr α) : List Json → Except DErr (List α)
  | [] => .ok []
  | x :: rest => do
    let a ← f x
    let r ← decodeList f rest
    .ok (a :: r)

/-- serde Vec decoding: requires an array. -/
def decodeArr {α : Type} (f : Json → Except DErr α) : Json → Except DErr (List α)
  | .arr xs => decodeList f xs
  | _ => .error .wrongType

/-- Serialize for RWalletConfig. -/
def encodeRWalletConfig (x : RWalletConfig) : Json :=
  .obj [("start_at", .num x.start_at), ("limits", .arr (x.limits.map encodeRWalletLimit))]

/-- Deserialize for RWalletConfig. -/
def decodeRWalletConfig (j : Json) : Except DErr RWalletConfig := do
  let s ← numberFromString (← reqField j "start_at")
  let ls ← decodeArr decodeRWalletLimit (← reqField j "limits")
  .ok ⟨s, ls⟩

/-- Serialize for PChanConfig. -/
def encodePChanConfig (x : PChanConfig) : Json :=
  .obj [("alice_public_key", .str x.alice_public_key),
    ("alice_address", encodeAccountAddress x.alice_address),
    ("bob_public_key", .str x.bob_public_key),
    ("bob_address", encodeAccountAddress x.bob_address),
    ("init_timeout", .num x.init_timeout), ("close_timeout", .num x.close_timeout),
    ("channel_id", .num x.channel_id)]

/-- Deserialize for PChanConfig. -/
def decodePChanConfig (j : Json) : Except DErr PChanConfig := do
  let apk ← decodeStrJ (← reqField j "alice_public_key")
  let aad ← decodeAccountAddress (← reqField j "alice_address")
  let bpk ← decodeStrJ (← reqField j "bob_public_key")
  let bad ← decodeAccountAddress (← reqField j "bob_address")
  let it ← decodeI32 (← reqField j "init_timeout")
  let ct ← decodeI32 (← reqField j "close_timeout")
  let ci ← decodeI64 (← reqField j "channel_id")
  .ok ⟨apk, aad, bpk, bad, it, ct, ci⟩

/-- Serialize for AccountState. -/
def encodeAccountState : AccountState → Json
  | .Raw code data fh =>
    .obj [("@type", .str (strOf "raw.accountState")), ("code", encodeBytes code),
      ("data", encodeBytes data), ("frozen_hash", encodeBytes fh)]
  | .WalletV3 w s =>
    .obj [("@type", .str (strOf "wallet.v3.accountState")), ("wallet_id", .num w),
      ("seqno", .num s)]
  | .WalletHighloadV1 w s =>
    .obj [("@type", .str (strOf "wallet.highload.v1.accountState")), ("wallet_id", .num w),
      ("seqno", .num s)]
  | .WalletHighloadV2 w =>
    .obj [("@type", .str (strOf "wallet.highload.v2.accountState")), ("wallet_id", .num w)]
  | .DNS w => .obj [("@type", .str (strOf "dns.accountState")), ("wallet_id", .num w)]
  | .RWallet w s u cfg =>
    .obj [("@type", .str (strOf "rwallet.accountState")), ("wallet_id", .num w),
      ("seqno", .num s), ("unlocked_balance", .num u), ("config", encodeRWalletConfig cfg)]
  | .Uninited fh =>
    .obj [("@type", .str (strOf "uninited.accountState")), ("frozen_hash", encodeBytes fh)]
  | .PChan cfg st d =>
    .obj [("@type", .str (strOf "pchan.accountState")), ("config", encodePChanConfig cfg),
      ("state", encodePChanState st), ("description", .str d)]

/-- Deserialize for AccountState. -/
def decodeAccountState (j : Json) : Except DErr AccountState := do
  let ty ← reqTag j
  if ty = strOf "raw.accountState" then do
    let code ← decodeBytes (← reqField j "code")
    let data ← decodeBytes (← reqField j "data")
    let fh ← decodeBytes (← reqField j "frozen_hash")
    .ok (.Raw code data fh)
  else if ty = strOf "wallet.v3.accountState" then do
    let w ← numberFromString (← reqField j "wallet_id")
    let s ← decodeI32 (← reqField j "seqno")
    .ok (.WalletV3 w s)
  else if ty = strOf "wallet.highload.v1.accountState" then do
    let w ← numberFromString (← reqField j "wallet_id")
    let s ← decodeI32 (← reqField j "seqno")
    .ok (.WalletHighloadV1 w s)
  else if ty = strOf "wallet.highload.v2.accountState" then do
    let w ← numberFromString (← reqField j "wallet_id")
    .ok (.WalletHighloadV2 w)
  else if ty = strOf "dns.accountState" then do
    let w ← numberFromString (← reqField j "wallet_id")
    .ok (.DNS w)
  else if ty = strOf "rwallet.accountState" then do
    let w ← numberFromString (← reqField j "wallet_id")
    let s ← decodeI32 (← reqField j "seqno")
    let u ← numberFromString (← reqField j "unlocked_balance")
    let cfg ← decodeRWalletConfig (← reqField j "config")
    .ok (.RWallet w s u cfg)
  else if ty = strOf "uninited.accountState" then do
    let fh ← decodeBytes (← reqField j "frozen_hash")
    .ok (.Uninited fh)
  else if ty = strOf "pchan.accountState" then do
    let cfg ← decodePChanConfig (← reqField j "config")
    let st ← decodePChanState (← reqField j "state")
    let d ← decodeStrJ (← reqField j "description")
    .ok (.PChan cfg st d)
  else .error .unknownDiscriminator

/-- Serialize for InternalTransactionId: plain number and base64 bytes. -/
def encodeInternalTransactionId (id : InternalTransactionId) : Json :=
  .obj [("lt", .num id.lt), ("hash", encodeBytes id.hash)]

/-- Deserialize for InternalTransactionId: number-from-string logical time
and Base64Standard hash bytes (no length check on this path). -/
def decodeInternalTransactionId (j : Json) : Except DErr InternalTransactionId := do
  let lt ← numberFromString (← reqField j "lt")
  let h ← decodeBytes (← reqField j "hash")
  .ok ⟨lt, h⟩

/-- Serialize for RawMessage. -/
def encodeRawMessage (m : RawMessage) : Json :=
  .obj [("source", encodeAccountAddress m.source),
    ("destination", encodeAccountAddress m.destination), ("value", .num m.value),
    ("fwd_fee", .num m.fwd_fee), ("ihr_fee", .num m.ihr_fee),
    ("created_lt", .num m.created_lt), ("body_hash", encodeBytes m.body_hash),
    ("msg_data", encodeMsgData m.msg_data)]

/-- Deserialize for RawMessage. -/
def decodeRawMessage (j : Json) : Except DErr RawMessage := do
  let src ← decodeAccountAddress (← reqField j "source")
  let dst ← decodeAccountAddress (← reqField j "destination")
  let v ← numberFromString (← reqField j "value")
  let ff ← numberFromString (← reqField j "fwd_fee")
  let ihr ← numberFromString (← reqField j "ihr_fee")
  let cl ← numberFromString (← reqField j "created_lt")
  let bh ← decodeBytes (← reqField j "body_hash")
  let md ← decodeMsgData (← reqField j "msg_data")
  .ok ⟨src, dst, v, ff, ihr, cl, bh, md⟩

/-- Decode a present optional value: success wraps in some. -/
def decodeSomeField {α : Type} (f : Json → Except DErr α) (v : Json) :
    Except DErr (Option α) :=
  match f v with
  | .ok a => .ok (some a)
  | .error e => .error e

/-- serde Option field: a missing key or an explicit null decodes to none. -/
def decodeOptionField {α : Type} (j : Json) (k : String) (f : Json → Except DErr α) :
    Except DErr (Option α) :=
  match j.getField k with
  | none => .ok none
  | some .null => .ok none
  | some v => decodeSomeField f v

/-- Serialize for RawTransaction: in_msg is skipped when none
(skip_serializing_if Option::is_none). -/
def encodeRawTransaction (t : RawTransaction) : Json :=
  .obj ([("utime", .num t.utime), ("data", encodeBytes t.data),
    ("transaction_id", encodeInternalTransactionId t.transaction_id),
    ("storage_fee", .num t.storage_fee), ("other_fee", .num t.other_fee)] ++
    (match t.in_msg with
     | none => []
     | some m => [("in_msg", encodeRawMessage m)]) ++
    [("out_msgs", .arr (t.out_msgs.map encodeRawMessage))])

/-- Deserialize for RawTransaction. -/
def decodeRawTransaction (j : Json) : Except DErr RawTransaction := do
  let u ← numberFromString (← reqField j "utime")
  let d ← decodeBytes (← reqField j "data")
  let tid ← decodeInternalTransactionId (← reqField j "transaction_id")
  let sf ← numberFromString (← reqField j "storage_fee")
  let ofee ← numberFromString (← reqField j "other_fee")
  let im ← decodeOptionField j "in_msg" decodeRawMessage
  let om ← decodeArr decodeRawMessage (← reqField j "out_msgs")
  .ok ⟨u, d, tid, sf, ofee, im, om⟩

/-- Range and byte invariants carried by the Rust types of MsgData. -/
def WFMsgData : MsgData → Prop
  | .Raw body is => bytesOk body ∧ bytesOk is
  | .Text t => bytesOk t
  | .DecryptedText t => bytesOk t
  | .EncryptedText t => bytesOk t

/-- Range and byte invariants carried by the Rust InternalTransactionId. -/
def WFITId (id : InternalTransactionId) : Prop := isI64 id.lt ∧ bytesOk id.hash

/-- Range and byte invariants carried by the Rust RawMessage. -/
def WFRawMessage (m : RawMessage) : Prop :=
  isI64 m.value ∧ isI64 m.fwd_fee ∧ isI64 m.ihr_fee ∧ isI64 m.created_lt ∧
    bytesOk m.body_hash ∧ WFMsgData m.msg_data

/-- Invariants of an optional message. -/
def WFOptMsg : Option RawMessage → Prop
  | none => True
  | some m => WFRawMessage m

/-- Range and byte invariants carried by the Rust RawTransaction. -/
def WFRawTransaction (t : RawTransaction) : Prop :=
  isI64 t.utime ∧ bytesOk t.data ∧ WFITId t.transaction_id ∧ isI64 t.storage_fee ∧
    isI64 t.other_fee ∧ WFOptMsg t.in_msg ∧ ∀ m ∈ t.out_msgs, WFRawMessage m

/-! Lemmas about splitting. -/

theorem splitCh_ne_nil (sep : Nat) (s : List Nat) : splitCh sep s ≠ [] := by
  induction s with
  | nil => simp [splitCh]
  | cons c rest ih =>
    simp only [splitCh]
    split
    · simp
    · split
      · simp
      · simp

theorem splitCh_length (sep : Nat) (s : List Nat) : (splitCh sep s).length = s.count sep + 1 := by
  induction s with
  | nil => simp [splitCh]
  | cons c rest ih =>
    by_cases h : c = sep
    · simp only [splitCh, if_pos h, List.length_cons, ih, List.count_cons]
      simp [h]
    · simp only [splitCh, if_neg h]
      cases hs : splitCh sep rest with
      | nil => exact absurd hs (splitCh_ne_nil sep rest)
      | cons p ps =>
        rw [hs] at ih
        simp only [List.length_cons] at ih ⊢
        simp [List.count_cons, h]
        omega

theorem splitCh_not_mem {sep : Nat} {s : List Nat} (h : sep ∉ s) : splitCh sep s = [s] := by
  induction s with
  | nil => rfl
  | cons c rest ih =>
    have hc : c ≠ sep := fun hc => h (hc ▸ List.mem_cons_self c rest)
    have hr : sep ∉ rest := fun hr => h (List.mem_cons_of_mem c hr)
    simp only [splitCh, if_neg hc, ih hr]

theorem splitCh_append {sep : Nat} : ∀ (l r : List Nat), sep ∉ l →
    splitCh sep (l ++ sep :: r) = l :: splitCh sep r
  | [], r, _ => by
    show splitCh sep (sep :: r) = [] :: splitCh sep r
    simp [splitCh]
  | c :: t, r, h => by
    have hc : c ≠ sep := fun hc => h (hc ▸ List.mem_cons_self c t)
    have ht : sep ∉ t := fun ht => h (List.mem_cons_of_mem c ht)
    have ih := splitCh_append t r ht
    show splitCh sep (c :: (t ++ sep :: r)) = (c :: t) :: splitCh sep r
    simp only [splitCh, if_neg hc, ih]

/-! Lemmas about decimal parsing and printing. -/

theorem digitVal_digit {d : Nat} (hd : d < 10) : digitVal (48 + d) = some d := by
  have hcond : 48 ≤ 48 + d ∧ 48 + d ≤ 57 := by omega
  unfold digitVal
  rw [if_pos hcond]
  simp only [Option.some.injEq]
  omega

theorem parseDigitsAux_digits (l : List Nat) (hl : ∀ d ∈ l, d < 10) (acc : Nat) :
    parseDigitsAux acc (l.map fun d => 48 + d) = some (l.foldl (fun a d => a * 10 + d) acc) := by
  induction l generalizing acc with
  | nil => rfl
  | cons d t ih =>
    have hd : d < 10 := hl d (List.mem_cons_self d t)
    simp only [List.map_cons, parseDigitsAux, digitVal_digit hd, List.foldl_cons]
    exact ih (fun x hx => hl x (List.mem_cons_of_mem d hx)) (acc * 10 + d)

theorem foldl_digits (l : List Nat) (acc : Nat) :
    l.reverse.foldl (fun a d => a * 10 + d) acc = acc * 10 ^ l.length + Nat.ofDigits 10 l := by
  induction l generalizing acc with
  | nil => simp
  | cons d t ih =>
    simp only [List.reverse_cons, List.foldl_append, List.foldl_cons, List.foldl_nil, ih,
      List.length_cons, Nat.ofDigits_cons, pow_succ]
    ring

theorem natRepr_ne_nil (n : Nat) : natRepr n ≠ [] := by
  unfold natRepr
  split
  · simp
  · simp [Nat.digits_ne_nil_iff_ne_zero, *]

theorem parseDigits_natRepr (n : Nat) : parseDigits (natRepr n) = some n := by
  unfold parseDigits
  rw [if_neg (natRepr_ne_nil n)]
  unfold natRepr
  by_cases h : n = 0
  · subst h; decide
  · rw [if_neg h]
    have h1 := parseDigitsAux_digits ((Nat.digits 10 n).reverse)
      (fun d hd => Nat.digits_lt_base (by norm_num) (List.mem_reverse.mp hd)) 0
    rw [h1, foldl_digits]
    simp [Nat.ofDigits_digits]

theorem natRepr_mem {n : Nat} {c : Nat} (hc : c ∈ natRepr n) : 48 ≤ c ∧ c ≤ 57 := by
  unfold natRepr at hc
  split at hc
  · simp at hc; omega
  · simp only [List.mem_map, List.mem_reverse] at hc
    obtain ⟨d, hd, rfl⟩ := hc
    have := Nat.digits_lt_base (by norm_num) hd
    omega

theorem intRepr_mem {i : Int} {c : Nat} (hc : c ∈ intRepr i) : c = 45 ∨ (48 ≤ c ∧ c ≤ 57) := by
  unfold intRepr at hc
  split at hc
  · rw [List.mem_cons] at hc
    rcases hc with rfl | hc
    · exact Or.inl rfl
    · exact Or.inr (natRepr_mem hc)
  · exact Or.inr (natRepr_mem hc)

theorem natRepr_head (n : Nat) : ∃ c t, natRepr n = c :: t ∧ 48 ≤ c ∧ c ≤ 57 := by
  cases hd : natRepr n with
  | nil => exact absurd hd (natRepr_ne_nil n)
  | cons c t =>
    have hc : c ∈ natRepr n := by rw [hd]; exact List.mem_cons_self c t
    exact ⟨c, t, rfl, natRepr_mem hc⟩

theorem parseI64_intRepr (i : Int) (h : isI64 i) : parseI64 (intRepr i) = some i := by
  obtain ⟨h1, h2⟩ := h
  unfold intRepr
  by_cases hn : i < 0
  · rw [if_pos hn]
    have hb : ((i.natAbs : Int) ≤ 2 ^ 63) := by omega
    simp only [parseI64]
    rw [if_neg (by omega : ¬((45 : Nat) = 43))]
    simp only [if_true]
    rw [parseDigits_natRepr, Option.some_bind', if_pos hb]
    simp only [Option.some.injEq]
    omega
  · rw [if_neg hn]
    obtain ⟨c, t, hct, hc1, hc2⟩ := natRepr_head i.natAbs
    have hb : ((i.natAbs : Int) < 2 ^ 63) := by omega
    have hc43 : ¬(c = 43) := by omega
    have hc45 : ¬(c = 45) := by omega
    rw [hct]
    simp only [parseI64]
    rw [if_neg hc43, if_neg hc45, ← hct, parseDigits_natRepr, Option.some_bind', if_pos hb]
    simp only [Option.some.injEq]
    omega

/-! Lemmas about the hex codec. -/

theorem hexDigitVal_hexDigitChar {d : Nat} (hd : d < 16) :
    hexDigitVal (hexDigitChar d) = some d := by
  unfold hexDigitVal hexDigitChar
  split_ifs <;> first
    | (simp only [Option.some.injEq]; omega)
    | (exfalso; omega)

theorem hexDecode_hexEncode : ∀ (bs : List Nat), bytesOk bs → hexDecode (hexEncode bs) = some bs
  | [], _ => rfl
  | b :: bs, h => by
    have hb : b < 256 := h b (List.mem_cons_self b bs)
    have hr : bytesOk bs := fun x hx => h x (List.mem_cons_of_mem b hx)
    have e1 : b / 16 < 16 := by omega
    have e2 : b % 16 < 16 := by omega
    have e3 : b / 16 * 16 + b % 16 = b := by omega
    simp only [hexEncode, hexDecode, hexDigitVal_hexDigitChar e1, hexDigitVal_hexDigitChar e2,
      Option.some_bind', hexDecode_hexEncode bs hr, Option.map_some', e3]

theorem hexEncode_length (bs : List Nat) : (hexEncode bs).length = 2 * bs.length := by
  induction bs with
  | nil => rfl
  | cons b t ih =>
    simp only [hexEncode, List.length_cons, ih]
    omega

theorem hexDigitChar_range {d : Nat} (hd : d < 16) :
    (48 ≤ hexDigitChar d ∧ hexDigitChar d ≤ 57) ∨ (97 ≤ hexDigitChar d ∧ hexDigitChar d ≤ 102) := by
  unfold hexDigitChar
  split_ifs <;> omega

theorem hexEncode_mem : ∀ {bs : List Nat} {c : Nat}, bytesOk bs → c ∈ hexEncode bs →
    (48 ≤ c ∧ c ≤ 57) ∨ (97 ≤ c ∧ c ≤ 102)
  | [], c, _, hc => absurd hc (List.not_mem_nil c)
  | b :: bs, c, hb, hc => by
    have h1 : b < 256 := hb b (List.mem_cons_self b bs)
    have hr : bytesOk bs := fun x hx => hb x (List.mem_cons_of_mem b hx)
    simp only [hexEncode, List.mem_cons] at hc
    rcases hc with rfl | rfl | hc
    · exact hexDigitChar_range (by omega)
    · exact hexDigitChar_range (by omega)
    · exact hexEncode_mem hr hc

theorem b64Val_b64Char (url : Bool) {d : Nat} (hd : d < 64) :
    b64Val url (b64Char url d) = some d := by
  cases url <;> interval_cases d <;> decide

theorem b64Char_std_range {d : Nat} (hd : d < 64) :
    b64Char false d ≠ 45 ∧ b64Char false d ≠ 95 ∧ b64Char false d ≠ 58 ∧ b64Char false d ≠ 61 := by
  interval_cases d <;> decide

theorem b64Char_ne_61 (url : Bool) {d : Nat} (hd : d < 64) : b64Char url d ≠ 61 := by
  cases url <;> interval_cases d <;> decide

theorem b64EncodeChunks_mem (url : Bool) : ∀ (bs : List Nat) (c : Nat), bytesOk bs →
    c ∈ b64EncodeChunks url bs → ∃ d, d < 64 ∧ c = b64Char url d
  | [], c, _, hc => absurd hc (List.not_mem_nil c)
  | [b1], c, hb, hc => by
    have h1 : b1 < 256 := hb b1 (List.mem_cons_self b1 [])
    simp only [b64EncodeChunks, List.mem_cons, List.not_mem_nil, or_false] at hc
    rcases hc with rfl | rfl
    · exact ⟨b1 / 4, by omega, rfl⟩
    · exact ⟨b1 % 4 * 16, by omega, rfl⟩
  | [b1, b2], c, hb, hc => by
    have h1 : b1 < 256 := hb b1 (by simp)
    have h2 : b2 < 256 := hb b2 (by simp)
    simp only [b64EncodeChunks, List.mem_cons, List.not_mem_nil, or_false] at hc
    rcases hc with rfl | rfl | rfl
    · exact ⟨b1 / 4, by omega, rfl⟩
    · exact ⟨b1 % 4 * 16 + b2 / 16, by omega, rfl⟩
    · exact ⟨b2 % 16 * 4, by omega, rfl⟩
  | b1 :: b2 :: b3 :: rest, c, hb, hc => by
    have h1 : b1 < 256 := hb b1 (by simp)
    have h2 : b2 < 256 := hb b2 (by simp)
    have h3 : b3 < 256 := hb b3 (by simp)
    have hr : bytesOk rest := fun x hx => hb x (by simp [hx])
    simp only [b64EncodeChunks, List.mem_cons] at hc
    rcases hc with rfl | rfl | rfl | rfl | hc
    · exact ⟨b1 / 4, by omega, rfl⟩
    · exact ⟨b1 % 4 * 16 + b2 / 16, by omega, rfl⟩
    · exact ⟨b2 % 16 * 4 + b3 / 64, by omega, rfl⟩
    · exact ⟨b3 % 64, by omega, rfl⟩
    · exact b64EncodeChunks_mem url rest c hr hc

theorem b64EncodeChunks_length (url : Bool) : ∀ (bs : List Nat),
    (b64EncodeChunks url bs).length =
      bs.length / 3 * 4 + (if bs.length % 3 = 0 then 0 else bs.length % 3 + 1)
  | [] => by simp [b64EncodeChunks]
  | [b1] => by simp [b64EncodeChunks]
  | [b1, b2] => by simp [b64EncodeChunks]
  | b1 :: b2 :: b3 :: rest => by
    have ih := b64EncodeChunks_length url rest
    simp only [b64EncodeChunks, List.length_cons, ih]
    have h3 : (rest.length + 1 + 1 + 1) / 3 = rest.length / 3 + 1 := by omega
    have h4 : (rest.length + 1 + 1 + 1) % 3 = rest.length % 3 := by omega
    rw [h3, h4]
    split_ifs <;> omega

theorem b64DecodeSyms_chunks (url : Bool) : ∀ (bs : List Nat), bytesOk bs →
    (b64Syms url (b64EncodeChunks url bs)).bind b64DecodeSyms = some bs
  | [], _ => rfl
  | [b1], hb => by
    have h1 : b1 < 256 := hb b1 (by simp)
    simp only [b64EncodeChunks, b64Syms, b64Val_b64Char url (show b1 / 4 < 64 by omega),
      b64Val_b64Char url (show b1 % 4 * 16 < 64 by omega), Option.some_bind',
      Option.map_some']
    simp only [Option.some_bind', b64DecodeSyms]
    rw [if_pos (by omega : b1 % 4 * 16 % 16 = 0)]
    simp only [Option.some.injEq, List.cons.injEq, and_true]
    omega
  | [b1, b2], hb => by
    have h1 : b1 < 256 := hb b1 (by simp)
    have h2 : b2 < 256 := hb b2 (by simp)
    simp only [b64EncodeChunks, b64Syms, b64Val_b64Char url (show b1 / 4 < 64 by omega),
      b64Val_b64Char url (show b1 % 4 * 16 + b2 / 16 < 64 by omega),
      b64Val_b64Char url (show b2 % 16 * 4 < 64 by omega), Option.some_bind',
      Option.map_some']
    simp only [Option.some_bind', b64DecodeSyms]
    rw [if_pos (by omega : b2 % 16 * 4 % 4 = 0)]
    simp only [Option.some.injEq, List.cons.injEq, and_true]
    constructor
    · omega
    · omega
  | b1 :: b2 :: b3 :: rest, hb => by
    have h1 : b1 < 256 := hb b1 (by simp)
    have h2 : b2 < 256 := hb b2 (by simp)
    have h3 : b3 < 256 := hb b3 (by simp)
    have hr : bytesOk rest := fun x hx => hb x (by simp [hx])
    have ih := b64DecodeSyms_chunks url rest hr
    cases hs : b64Syms url (b64EncodeChunks url rest) with
    | none => rw [hs] at ih; simp at ih
    | some L =>
      rw [hs] at ih
      simp only [Option.some_bind'] at ih
      simp only [b64EncodeChunks, b64Syms, hs, b64Val_b64Char url (show b1 / 4 < 64 by omega),
        b64Val_b64Char url (show b1 % 4 * 16 + b2 / 16 < 64 by omega),
        b64Val_b64Char url (show b2 % 16 * 4 + b3 / 64 < 64 by omega),
        b64Val_b64Char url (show b3 % 64 < 64 by omega), Option.some_bind', Option.map_some']
      simp only [Option.some_bind', b64DecodeSyms, ih, Option.map_some']
      simp only [Option.some.injEq, List.cons.injEq]
      refine ⟨by omega, by omega, by omega, trivial⟩

theorem dropWhile_replicate_append (p : Nat) (l : List Nat) :
    List.dropWhile (fun c => c == 61) (List.replicate p 61 ++ l) =
      List.dropWhile (fun c => c == 61) l := by
  induction p with
  | zero => simp
  | succ k ih => simp [List.replicate_succ, List.dropWhile_cons, ih]

theorem dropWhile_eq_self_of_ne {l : List Nat} (h : ∀ c ∈ l, c ≠ 61) :
    List.dropWhile (fun c => c == 61) l = l := by
  cases l with
  | nil => rfl
  | cons x t =>
    have hx : x ≠ 61 := h x (by simp)
    rw [List.dropWhile_cons, if_neg (by simpa using hx : ¬((x == 61) = true))]

theorem b64_roundtrip (url penc pdec : Bool) (bs : List Nat) (hb : bytesOk bs) :
    b64Decode url pdec (b64Encode url penc bs) = some bs := by
  have hcl := b64EncodeChunks_length url bs
  have hchar := b64EncodeChunks_mem url bs
  have hne61 : ∀ c ∈ (b64EncodeChunks url bs).reverse, c ≠ 61 := by
    intro c hc
    obtain ⟨d, hd, rfl⟩ := hchar c hb (List.mem_reverse.mp hc)
    exact b64Char_ne_61 url hd
  cases penc with
  | false =>
    have hstrip : stripPad (b64EncodeChunks url bs) = b64EncodeChunks url bs := by
      unfold stripPad
      rw [dropWhile_eq_self_of_ne hne61, List.reverse_reverse]
    show b64Decode url pdec (b64EncodeChunks url bs ++ []) = some bs
    rw [List.append_nil]
    unfold b64Decode
    rw [hstrip]
    have hc : (b64EncodeChunks url bs).length - (b64EncodeChunks url bs).length = 0 ∨
        ((b64EncodeChunks url bs).length +
          ((b64EncodeChunks url bs).length - (b64EncodeChunks url bs).length)) % 4 = 0 ∧
          (b64EncodeChunks url bs).length - (b64EncodeChunks url bs).length ≤ 2 :=
      Or.inl (by omega)
    rw [if_pos hc]
    exact b64DecodeSyms_chunks url bs hb
  | true =>
    set p := (3 - bs.length % 3) % 3 with hp
    have hrep : b64Encode url true bs = b64EncodeChunks url bs ++ List.replicate p 61 := rfl
    have hstrip : stripPad (b64EncodeChunks url bs ++ List.replicate p 61) =
        b64EncodeChunks url bs := by
      unfold stripPad
      rw [List.reverse_append, List.reverse_replicate, dropWhile_replicate_append,
        dropWhile_eq_self_of_ne hne61, List.reverse_reverse]
    have hcond : (b64EncodeChunks url bs ++ List.replicate p 61).length -
          (b64EncodeChunks url bs).length = 0 ∨
        ((b64EncodeChunks url bs).length +
          ((b64EncodeChunks url bs ++ List.replicate p 61).length -
            (b64EncodeChunks url bs).length)) % 4 = 0 ∧
          (b64EncodeChunks url bs ++ List.replicate p 61).length -
            (b64EncodeChunks url bs).length ≤ 2 := by
      rcases (by omega : bs.length % 3 = 0 ∨ bs.length % 3 = 1 ∨ bs.length % 3 = 2) with
        h3 | h3 | h3 <;>
        simp only [List.length_append, List.length_replicate, hcl, h3, hp] <;> simp <;> omega
    rw [hrep]
    unfold b64Decode
    rw [hstrip, if_pos hcond]
    exact b64DecodeSyms_chunks url bs hb

theorem b64Encode_mem {url pad : Bool} {bs : List Nat} {c : Nat} (hb : bytesOk bs)
    (hc : c ∈ b64Encode url pad bs) : c = 61 ∨ ∃ d, d < 64 ∧ c = b64Char url d := by
  unfold b64Encode at hc
  rw [List.mem_append] at hc
  rcases hc with hc | hc
  · exact Or.inr (b64EncodeChunks_mem url bs c hb hc)
  · left
    split at hc
    · exact List.eq_of_mem_replicate hc
    · simp at hc

theorem b64Encode_std_mem {pad : Bool} {bs : List Nat} {c : Nat} (hb : bytesOk bs)
    (hc : c ∈ b64Encode false pad bs) : c ≠ 45 ∧ c ≠ 95 ∧ c ≠ 58 := by
  rcases b64Encode_mem hb hc with rfl | ⟨d, hd, rfl⟩
  · exact ⟨by omega, by omega, by omega⟩
  · have h := b64Char_std_range hd
    exact ⟨h.1, h.2.1, h.2.2.1⟩

theorem b64Encode_pad_length (url : Bool) (bs : List Nat) :
    (b64Encode url true bs).length = (bs.length + 2) / 3 * 4 := by
  have hcl := b64EncodeChunks_length url bs
  show (b64EncodeChunks url bs ++ List.replicate ((3 - bs.length % 3) % 3) 61).length = _
  rw [List.length_append, List.length_replicate, hcl]
  rcases (by omega : bs.length % 3 = 0 ∨ bs.length % 3 = 1 ∨ bs.length % 3 = 2) with
    h3 | h3 | h3 <;> simp only [h3] <;> simp <;> omega

theorem b64Encode_nopad_length (url : Bool) (bs : List Nat) :
    (b64Encode url false bs).length =
      bs.length / 3 * 4 + (if bs.length % 3 = 0 then 0 else bs.length % 3 + 1) := by
  have hcl := b64EncodeChunks_length url bs
  show (b64EncodeChunks url bs ++ []).length = _
  rw [List.append_nil, hcl]

/-! Lemmas about the identifier codec. -/

theorem from_str_form (lt : Int) (hs : List Nat) (h : List Nat) (hlt : isI64 lt)
    (hno : (58 : Nat) ∉ hs) (hdec : decodeHash hs = .ok h) (hlen : h.length = 32) :
    InternalTransactionId.from_str (intRepr lt ++ 58 :: hs) = .ok ⟨lt, h⟩ := by
  have hno1 : (58 : Nat) ∉ intRepr lt := by
    intro hc
    rcases intRepr_mem hc with h1 | h1 <;> omega
  have hsplit : splitCh 58 (intRepr lt ++ 58 :: hs) = [intRepr lt, hs] := by
    rw [splitCh_append (intRepr lt) hs hno1, splitCh_not_mem hno]
  unfold InternalTransactionId.from_str
  simp only [hsplit, parseI64_intRepr lt hlt]
  unfold InternalTransactionId.from_lt_hash
  simp only [hdec]
  rw [if_pos hlen]

theorem decodeHash_hex {h : List Nat} (hlen : h.length = 32) (hb : bytesOk h) :
    decodeHash (hexEncode h) = .ok h := by
  have hl : (hexEncode h).length = 64 := by rw [hexEncode_length, hlen]
  unfold decodeHash
  rw [if_pos hl]
  simp only [hexDecode_hexEncode h hb]

theorem from_str_hex (lt : Int) (h : List Nat) (hlt : isI64 lt) (hlen : h.length = 32)
    (hb : bytesOk h) :
    InternalTransactionId.from_str (intRepr lt ++ 58 :: hexEncode h) = .ok ⟨lt, h⟩ := by
  refine from_str_form lt _ h hlt ?_ (decodeHash_hex hlen hb) hlen
  intro hc
  rcases hexEncode_mem hb hc with h1 | h1 <;> omega

theorem decodeHash_b64_std {pad : Bool} {h : List Nat} (hlen : h.length = 32)
    (hb : bytesOk h) : decodeHash (b64Encode false pad h) = .ok h := by
  have h45 : (45 : Nat) ∉ b64Encode false pad h := fun hc => (b64Encode_std_mem hb hc).1 rfl
  have h95 : (95 : Nat) ∉ b64Encode false pad h := fun hc => (b64Encode_std_mem hb hc).2.1 rfl
  have hl64 : ¬((b64Encode false pad h).length = 64) := by
    cases pad with
    | true =>
      have hl : (b64Encode false true h).length = 44 := by
        rw [b64Encode_pad_length, hlen]
      omega
    | false =>
      have hl : (b64Encode false false h).length = 43 := by
        rw [b64Encode_nopad_length, hlen]
        simp
      omega
  unfold decodeHash
  rw [if_neg hl64, decide_eq_false h45, decide_eq_false h95]
  simp only [Bool.or_self,
    b64_roundtrip false pad (decide ((b64Encode false pad h).length = 44)) h hb]

theorem from_str_b64 (pad : Bool) (lt : Int) (h : List Nat) (hlt : isI64 lt)
    (hlen : h.length = 32) (hb : bytesOk h) :
    InternalTransactionId.from_str (intRepr lt ++ 58 :: b64Encode false pad h) = .ok ⟨lt, h⟩ := by
  refine from_str_form lt _ h hlt ?_ (decodeHash_b64_std hlen hb) hlen
  intro hc
  exact (b64Encode_std_mem hb hc).2.2 rfl

theorem from_lt_hash_length (lt : Int) (s : List Nat) (id : InternalTransactionId)
    (hk : InternalTransactionId.from_lt_hash lt s = .ok id) : id.hash.length = 32 := by
  unfold InternalTransactionId.from_lt_hash at hk
  split at hk
  · exact absurd hk (by simp)
  · split at hk
    · injection hk with hk
      subst hk
      assumption
    · exact absurd hk (by simp)

theorem from_str_length (s : List Nat) (id : InternalTransactionId)
    (hk : InternalTransactionId.from_str s = .ok id) : id.hash.length = 32 := by
  unfold InternalTransactionId.from_str at hk
  split at hk
  · split at hk
    · exact from_lt_hash_length _ _ _ hk
    · exact absurd hk (by simp)
  · exact absurd hk (by simp)

theorem decodeHash_not_malformed (s : List Nat) :
    decodeHash s ≠ .error .malformedFormat := by
  unfold decodeHash
  split
  · split <;> simp
  · split <;> simp

theorem from_lt_hash_not_malformed (lt : Int) (s : List Nat) :
    InternalTransactionId.from_lt_hash lt s ≠ .error .malformedFormat := by
  unfold InternalTransactionId.from_lt_hash
  split
  next e heq =>
    intro hk
    injection hk with hk
    subst hk
    exact decodeHash_not_malformed s heq
  next h heq =>
    split <;> simp

/-! Lemmas about the wire codecs. -/

theorem bind_ok {ε α β : Type} {x : Except ε α} {f : α → Except ε β} {b : β}
    (h : x >>= f = .ok b) : ∃ a, x = .ok a ∧ f a = .ok b := by
  cases x with
  | ok a => exact ⟨a, rfl, h⟩
  | error e => exact absurd h (by simp [Bind.bind, Except.bind])

theorem ok_bind {ε α β : Type} (a : α) (f : α → Except ε β) :
    ((Except.ok a : Except ε α) >>= f) = f a := rfl

theorem reqTag_ok {j : Json} {ty : List Nat} (h : reqTag j = .ok ty) :
    j.getField "@type" = some (.str ty) := by
  unfold reqTag at h
  cases hty : j.getField "@type" with
  | none =>
    rw [hty] at h
    have h2 : (Except.error DErr.missingField : Except DErr (List Nat)) = .ok ty := h
    exact absurd h2 (by simp)
  | some t =>
    rw [hty] at h
    cases t with
    | str ty2 =>
      have h2 : (Except.ok ty2 : Except DErr (List Nat)) = .ok ty := h
      injection h2 with h2
      rw [h2]
    | num n =>
      have h2 : (Except.error DErr.wrongType : Except DErr (List Nat)) = .ok ty := h
      exact absurd h2 (by simp)
    | bool b =>
      have h2 : (Except.error DErr.wrongType : Except DErr (List Nat)) = .ok ty := h
      exact absurd h2 (by simp)
    | null =>
      have h2 : (Except.error DErr.wrongType : Except DErr (List Nat)) = .ok ty := h
      exact absurd h2 (by simp)
    | arr xs =>
      have h2 : (Except.error DErr.wrongType : Except DErr (List Nat)) = .ok ty := h
      exact absurd h2 (by simp)
    | obj fs =>
      have h2 : (Except.error DErr.wrongType : Except DErr (List Nat)) = .ok ty := h
      exact absurd h2 (by simp)

theorem reqTag_of_field {j : Json} {ty : List Nat}
    (hty : j.getField "@type" = some (.str ty)) : reqTag j = .ok ty := by
  unfold reqTag
  simp only [hty]

/-! Claim theorems. -/

/-- C1: for every identifier whose lt is an i64 and whose hash is a 32-byte
sequence, parsing the canonical textual form yields the identifier back. -/
theorem C1_from_str_to_string (lt : Int) (hash : List Nat) (hlt : isI64 lt)
    (hlen : hash.length = 32) (hb : bytesOk hash) :
    InternalTransactionId.from_str (InternalTransactionId.to_string ⟨lt, hash⟩) =
      .ok ⟨lt, hash⟩ := by
  show InternalTransactionId.from_str (intRepr lt ++ 58 :: hexEncode hash) = .ok ⟨lt, hash⟩
  exact from_str_hex lt hash hlt hlen hb

/-- C1 witness at a concrete identifier. -/
theorem C1_witness :
    InternalTransactionId.from_str
        (InternalTransactionId.to_string ⟨33256211000003, List.replicate 32 171⟩) =
      .ok ⟨33256211000003, List.replicate 32 171⟩ :=
  C1_from_str_to_string 33256211000003 (List.replicate 32 171) (by decide) (by decide)
    (by decide)

/-- C2 counterexample: wire deserialization of an InternalTransactionId
accepts a hash that is not 32 bytes long (here: empty), so not every
instance obtainable through the public constructors has a 32-byte hash. -/
theorem C2_counterexample :
    decodeInternalTransactionId
        (Json.obj [("lt", Json.num 0), ("hash", Json.str (strOf ""))]) = .ok ⟨0, []⟩ ∧
      (⟨0, []⟩ : InternalTransactionId).hash.length ≠ 32 :=
  ⟨rfl, by decide⟩

/-- C2 amended: every identifier produced by from_str, by from_lt_hash, or
by the sentinel constant has a hash of exactly 32 bytes; the wire
deserializer performs no length check. -/
theorem C2_amended_invariant :
    (∀ s id, InternalTransactionId.from_str s = .ok id → id.hash.length = 32) ∧
    (∀ lt s id, InternalTransactionId.from_lt_hash lt s = .ok id → id.hash.length = 32) ∧
    NULL_TRANSACTION_ID.hash.length = 32 :=
  ⟨from_str_length, from_lt_hash_length, by decide⟩

/-- C2 amended witness at a concrete parsed identifier. -/
theorem C2_witness :
    (⟨0, List.replicate 32 0⟩ : InternalTransactionId).hash.length = 32 :=
  C2_amended_invariant.1
    (strOf "0:0000000000000000000000000000000000000000000000000000000000000000")
    ⟨0, List.replicate 32 0⟩ (by rfl)

/-- C4: from_str splits on every colon, requires exactly two parts, and
fails with MalformedFormat exactly when the number of colons differs from
one; as a total function it never panics. -/
theorem C4_malformed_iff (s : List Nat) :
    InternalTransactionId.from_str s = .error .malformedFormat ↔ s.count 58 ≠ 1 := by
  have hl := splitCh_length 58 s
  unfold InternalTransactionId.from_str
  cases hsp : splitCh 58 s with
  | nil => exact absurd hsp (splitCh_ne_nil 58 s)
  | cons p0 ps =>
    rw [hsp] at hl
    cases ps with
    | nil =>
      simp only [List.length_cons, List.length_nil] at hl
      constructor
      · intro _
        omega
      · intro _
        rfl
    | cons p1 ps2 =>
      cases ps2 with
      | nil =>
        simp only [List.length_cons, List.length_nil] at hl
        constructor
        · intro hk
          exfalso
          have hk2 : (match parseI64 p0 with
              | some lt => InternalTransactionId.from_lt_hash lt p1
              | none => Except.error IdError.invalidLogicalTime) =
              Except.error IdError.malformedFormat := hk
          cases hp : parseI64 p0 with
          | some lt =>
            rw [hp] at hk2
            exact from_lt_hash_not_malformed lt p1 hk2
          | none =>
            rw [hp] at hk2
            simp at hk2
        · intro hcount
          exact absurd (by omega) hcount
      | cons p2 ps3 =>
        simp only [List.length_cons] at hl
        constructor
        · intro _
          omega
        · intro _
          rfl

/-- C4 witness: an input with no colon fails with MalformedFormat. -/
theorem C4_witness :
    InternalTransactionId.from_str (strOf "5abcd") = .error .malformedFormat :=
  (C4_malformed_iff (strOf "5abcd")).mpr (by decide)

/-- C5: the hex form, the padded standard-base64 form and the unpadded
base64 form of the same (lt, 32-byte hash) pair all parse to the same
identifier, which re-formats to the canonical lt-colon-lowercase-hex
string whatever the input encoding was. -/
theorem C5_encodings_agree (lt : Int) (h : List Nat) (hlt : isI64 lt) (hlen : h.length = 32)
    (hb : bytesOk h) :
    InternalTransactionId.from_str (intRepr lt ++ 58 :: hexEncode h) = .ok ⟨lt, h⟩ ∧
    InternalTransactionId.from_str (intRepr lt ++ 58 :: b64Encode false true h) = .ok ⟨lt, h⟩ ∧
    InternalTransactionId.from_str (intRepr lt ++ 58 :: b64Encode false false h) = .ok ⟨lt, h⟩ ∧
    InternalTransactionId.to_string ⟨lt, h⟩ = intRepr lt ++ 58 :: hexEncode h :=
  ⟨from_str_hex lt h hlt hlen hb, from_str_b64 true lt h hlt hlen hb,
    from_str_b64 false lt h hlt hlen hb, rfl⟩

/-- C5 witness: the padded base64 form of a concrete hash parses to the
same identifier as its hex form. -/
theorem C5_witness :
    InternalTransactionId.from_str
        (intRepr 5 ++ 58 :: b64Encode false true (List.replicate 32 0)) =
      .ok ⟨5, List.replicate 32 0⟩ :=
  (C5_encodings_agree 5 (List.replicate 32 0) (by decide) (by decide) (by decide)).2.1

/-- C8: a large-integer field decodes the native numeric token and the
quoted decimal numeral to the same value, and a quoted string that is not
a base-10 integer fails with InvalidNumber. -/
theorem C8_number_or_string (n : Int) (hn : isI64 n) :
    numberFromString (.num n) = .ok n ∧
    numberFromString (.str (intRepr n)) = .ok n ∧
    numberFromString (.str (strOf "12a")) = .error .invalidNumber := by
  refine ⟨?_, ?_, rfl⟩
  · show (if isI64 n then Except.ok n else Except.error DErr.invalidNumber) = .ok n
    rw [if_pos hn]
  · show (match parseI64 (intRepr n) with
      | some m => Except.ok m
      | none => Except.error DErr.invalidNumber) = .ok n
    rw [parseI64_intRepr n hn]

/-- C8 witness at the concrete value 12345. -/
theorem C8_witness :
    numberFromString (.num 12345) = .ok 12345 ∧
    numberFromString (.str (intRepr 12345)) = .ok 12345 ∧
    numberFromString (.str (strOf "12a")) = .error .invalidNumber :=
  C8_number_or_string 12345 (by decide)

/-- C9: every PChanState variant encodes its payment-channel fields under
the exact mixed-case wire names signed_A, signed_B, min_A, min_B, A, B,
and decoding requires those exact names. -/
theorem C9_pchan_wire_names :
    (∀ sa sb ma mb ea a b, (encodePChanState (.Init sa sb ma mb ea a b)).keys =
      ["@type", "signed_A", "signed_B", "min_A", "min_B", "expire_at", "A", "B"]) ∧
    (∀ sa sb ma mb ea a b, (encodePChanState (.Close sa sb ma mb ea a b)).keys =
      ["@type", "signed_A", "signed_B", "min_A", "min_B", "expire_at", "A", "B"]) ∧
    (∀ a b, (encodePChanState (.Payout a b)).keys = ["@type", "A", "B"]) ∧
    (∀ j, j.getField "@type" = some (.str (strOf "pchan.stateInit")) →
      j.getField "signed_A" = none → decodePChanState j = .error .missingField) ∧
    (∀ j, j.getField "@type" = some (.str (strOf "pchan.stateClose")) →
      j.getField "signed_A" = none → decodePChanState j = .error .missingField) ∧
    (∀ j, j.getField "@type" = some (.str (strOf "pchan.statePayout")) →
      j.getField "A" = none → decodePChanState j = .error .missingField) := by
  refine ⟨fun sa sb ma mb ea a b => rfl, fun sa sb ma mb ea a b => rfl, fun a b => rfl,
    ?_, ?_, ?_⟩
  all_goals
    intro j hty hA
    unfold decodePChanState
    simp only [reqTag_of_field hty, ok_bind, if_true]
    unfold reqField
    rw [hA]
    rfl

/-- C9 witness: a stateInit payload carrying only the lower-case field name
signed_a fails with MissingField. -/
theorem C9_witness :
    decodePChanState (Json.obj [("@type", Json.str (strOf "pchan.stateInit")),
      ("signed_a", Json.bool true)]) = .error .missingField :=
  C9_pchan_wire_names.2.2.2.1 _ rfl rfl

/-- C6: for every union in the model, decoding a payload whose
discriminator string matches no declared variant fails with
UnknownDiscriminator. -/
theorem C6_unknown_discriminator (j : Json) (ty : List Nat)
    (hty : j.getField "@type" = some (.str ty)) :
    (ty ∉ keyStoreTypeTags → decodeKeyStoreType j = .error .unknownDiscriminator) ∧
    (ty ∉ accountStateTags → decodeAccountState j = .error .unknownDiscriminator) ∧
    (ty ∉ pchanStateTags → decodePChanState j = .error .unknownDiscriminator) ∧
    (ty ∉ msgDataTags → decodeMsgData j = .error .unknownDiscriminator) ∧
    (ty ∉ syncStateTags → decodeSyncState j = .error .unknownDiscriminator) ∧
    (ty ∉ smcMethodIdTags → decodeSmcMethodId j = .error .unknownDiscriminator) := by
  have hTag := reqTag_of_field hty
  refine ⟨?_, ?_, ?_, ?_, ?_, ?_⟩ <;> intro hmem
  · simp [keyStoreTypeTags] at hmem
    obtain ⟨h1, h2⟩ := hmem
    unfold decodeKeyStoreType
    simp only [hTag, ok_bind]
    rw [if_neg h1, if_neg h2]
  · simp [accountStateTags] at hmem
    obtain ⟨h1, h2, h3, h4, h5, h6, h7, h8⟩ := hmem
    unfold decodeAccountState
    simp only [hTag, ok_bind]
    rw [if_neg h1, if_neg h2, if_neg h3, if_neg h4, if_neg h5, if_neg h6, if_neg h7,
      if_neg h8]
  · simp [pchanStateTags] at hmem
    obtain ⟨h1, h2, h3⟩ := hmem
    unfold decodePChanState
    simp only [hTag, ok_bind]
    rw [if_neg h1, if_neg h2, if_neg h3]
  · simp [msgDataTags] at hmem
    obtain ⟨h1, h2, h3, h4⟩ := hmem
    unfold decodeMsgData
    simp only [hTag, ok_bind]
    rw [if_neg h1, if_neg h2, if_neg h3, if_neg h4]
  · simp [syncStateTags] at hmem
    obtain ⟨h1, h2⟩ := hmem
    unfold decodeSyncState
    simp only [hTag, ok_bind]
    rw [if_neg h1, if_neg h2]
  · simp [smcMethodIdTags] at hmem
    obtain ⟨h1, h2⟩ := hmem
    unfold decodeSmcMethodId
    simp only [hTag, ok_bind]
    rw [if_neg h1, if_neg h2]

/-- C6 witness: a payload with the undeclared discriminator b fails for
MsgData with UnknownDiscriminator. -/
theorem C6_witness :
    decodeMsgData (Json.obj [("@type", Json.str (strOf "b"))]) =
      .error .unknownDiscriminator :=
  (C6_unknown_discriminator (Json.obj [("@type", Json.str (strOf "b"))]) (strOf "b")
    rfl).2.2.2.1 (by decide)

/-- C7: for every union, a successfully decoded value's declared
discriminator is the payload's discriminator, and re-encoding the decoded
value reproduces that discriminator and exactly the declared field set. -/
theorem C7_decode_encode (j : Json) :
    (∀ v : KeyStoreType, decodeKeyStoreType j = .ok v →
      j.getField "@type" = some (.str v.tag) ∧
      (encodeKeyStoreType v).getField "@type" = some (.str v.tag) ∧
      (encodeKeyStoreType v).keys = v.declaredKeys) ∧
    (∀ v : AccountState, decodeAccountState j = .ok v →
      j.getField "@type" = some (.str v.tag) ∧
      (encodeAccountState v).getField "@type" = some (.str v.tag) ∧
      (encodeAccountState v).keys = v.declaredKeys) ∧
    (∀ v : PChanState, decodePChanState j = .ok v →
      j.getField "@type" = some (.str v.tag) ∧
      (encodePChanState v).getField "@type" = some (.str v.tag) ∧
      (encodePChanState v).keys = v.declaredKeys) ∧
    (∀ v : MsgData, decodeMsgData j = .ok v →
      j.getField "@type" = some (.str v.tag) ∧
      (encodeMsgData v).getField "@type" = some (.str v.tag) ∧
      (encodeMsgData v).keys = v.declaredKeys) ∧
    (∀ v : SyncState, decodeSyncState j = .ok v →
      j.getField "@type" = some (.str v.tag) ∧
      (encodeSyncState v).getField "@type" = some (.str v.tag) ∧
      (encodeSyncState v).keys = v.declaredKeys) ∧
    (∀ v : SmcMethodId, decodeSmcMethodId j = .ok v →
      j.getField "@type" = some (.str v.tag) ∧
      (encodeSmcMethodId v).getField "@type" = some (.str v.tag) ∧
      (encodeSmcMethodId v).keys = v.declaredKeys) := by
  refine ⟨?_, ?_, ?_, ?_, ?_, ?_⟩
  · intro v h
    unfold decodeKeyStoreType at h
    obtain ⟨ty, hTag, h⟩ := bind_ok h
    have hty2 := reqTag_ok hTag
    split_ifs at h with e1 e2
    · repeat obtain ⟨_, -, h⟩ := bind_ok h
      rw [Except.ok.injEq] at h
      subst h
      exact ⟨by rw [hty2, e1]; rfl, rfl, rfl⟩
    · rw [Except.ok.injEq] at h
      subst h
      exact ⟨by rw [hty2, e2]; rfl, rfl, rfl⟩
  · intro v h
    unfold decodeAccountState at h
    obtain ⟨ty, hTag, h⟩ := bind_ok h
    have hty2 := reqTag_ok hTag
    split_ifs at h with e1 e2 e3 e4 e5 e6 e7 e8
    · repeat obtain ⟨_, -, h⟩ := bind_ok h
      rw [Except.ok.injEq] at h
      subst h
      exact ⟨by rw [hty2, e1]; rfl, rfl, rfl⟩
    · repeat obtain ⟨_, -, h⟩ := bind_ok h
      rw [Except.ok.injEq] at h
      subst h
      exact ⟨by rw [hty2, e2]; rfl, rfl, rfl⟩
    · repeat obtain ⟨_, -, h⟩ := bind_ok h
      rw [Except.ok.injEq] at h
      subst h
      exact ⟨by rw [hty2, e3]; rfl, rfl, rfl⟩
    · repeat obtain ⟨_, -, h⟩ := bind_ok h
      rw [Except.ok.injEq] at h
      subst h
      exact ⟨by rw [hty2, e4]; rfl, rfl, rfl⟩
    · repeat obtain ⟨_, -, h⟩ := bind_ok h
      rw [Except.ok.injEq] at h
      subst h
      exact ⟨by rw [hty2, e5]; rfl, rfl, rfl⟩
    · repeat obtain ⟨_, -, h⟩ := bind_ok h
      rw [Except.ok.injEq] at h
      subst h
      exact ⟨by rw [hty2, e6]; rfl, rfl, rfl⟩
    · repeat obtain ⟨_, -, h⟩ := bind_ok h
      rw [Except.ok.injEq] at h
      subst h
      exact ⟨by rw [hty2, e7]; rfl, rfl, rfl⟩
    · repeat obtain ⟨_, -, h⟩ := bind_ok h
      rw [Except.ok.injEq] at h
      subst h
      exact ⟨by rw [hty2, e8]; rfl, rfl, rfl⟩
  · intro v h
    unfold decodePChanState at h
    obtain ⟨ty, hTag, h⟩ := bind_ok h
    have hty2 := reqTag_ok hTag
    split_ifs at h with e1 e2 e3
    · repeat obtain ⟨_, -, h⟩ := bind_ok h
      rw [Except.ok.injEq] at h
      subst h
      exact ⟨by rw [hty2, e1]; rfl, rfl, rfl⟩
    · repeat obtain ⟨_, -, h⟩ := bind_ok h
      rw [Except.ok.injEq] at h
      subst h
      exact ⟨by rw [hty2, e2]; rfl, rfl, rfl⟩
    · repeat obtain ⟨_, -, h⟩ := bind_ok h
      rw [Except.ok.injEq] at h
      subst h
      exact ⟨by rw [hty2, e3]; rfl, rfl, rfl⟩
  · intro v h
    unfold decodeMsgData at h
    obtain ⟨ty, hTag, h⟩ := bind_ok h
    have hty2 := reqTag_ok hTag
    split_ifs at h with e1 e2 e3 e4
    · repeat obtain ⟨_, -, h⟩ := bind_ok h
      rw [Except.ok.injEq] at h
      subst h
      exact ⟨by rw [hty2, e1]; rfl, rfl, rfl⟩
    · repeat obtain ⟨_, -, h⟩ := bind_ok h
      rw [Except.ok.injEq] at h
      subst h
      exact ⟨by rw [hty2, e2]; rfl, rfl, rfl⟩
    · repeat obtain ⟨_, -, h⟩ := bind_ok h
      rw [Except.ok.injEq] at h
      subst h
      exact ⟨by rw [hty2, e3]; rfl, rfl, rfl⟩
    · repeat obtain ⟨_, -, h⟩ := bind_ok h
      rw [Except.ok.injEq] at h
      subst h
      exact ⟨by rw [hty2, e4]; rfl, rfl, rfl⟩
  · intro v h
    unfold decodeSyncState at h
    obtain ⟨ty, hTag, h⟩ := bind_ok h
    have hty2 := reqTag_ok hTag
    split_ifs at h with e1 e2
    · rw [Except.ok.injEq] at h
      subst h
      exact ⟨by rw [hty2, e1]; rfl, rfl, rfl⟩
    · repeat obtain ⟨_, -, h⟩ := bind_ok h
      rw [Except.ok.injEq] at h
      subst h
      exact ⟨by rw [hty2, e2]; rfl, rfl, rfl⟩
  · intro v h
    unfold decodeSmcMethodId at h
    obtain ⟨ty, hTag, h⟩ := bind_ok h
    have hty2 := reqTag_ok hTag
    split_ifs at h with e1 e2
    · repeat obtain ⟨_, -, h⟩ := bind_ok h
      rw [Except.ok.injEq] at h
      subst h
      exact ⟨by rw [hty2, e1]; rfl, rfl, rfl⟩
    · repeat obtain ⟨_, -, h⟩ := bind_ok h
      rw [Except.ok.injEq] at h
      subst h
      exact ⟨by rw [hty2, e2]; rfl, rfl, rfl⟩

/-- C7 witness: decoding a syncStateDone payload and re-encoding it keeps
the discriminator and field set. -/
theorem C7_witness :
    (Json.obj [("@type", Json.str (strOf "syncStateDone"))]).getField "@type" =
      some (.str (SyncState.Done.tag)) ∧
    (encodeSyncState .Done).getField "@type" = some (.str (SyncState.Done.tag)) ∧
    (encodeSyncState .Done).keys = SyncState.Done.declaredKeys :=
  (C7_decode_encode (Json.obj [("@type", Json.str (strOf "syncStateDone"))])).2.2.2.2.1
    .Done rfl

theorem round_bytes {bs : List Nat} (hb : bytesOk bs) :
    decodeBytes (encodeBytes bs) = .ok bs := by
  show (match b64Decode false true (b64Encode false true bs) with
    | some bs2 => Except.ok bs2
    | none => Except.error DErr.invalidBase64) = .ok bs
  rw [b64_roundtrip false true true bs hb]

theorem round_num {n : Int} (hn : isI64 n) : numberFromString (.num n) = .ok n := by
  show (if isI64 n then Except.ok n else Except.error DErr.invalidNumber) = .ok n
  rw [if_pos hn]

theorem round_msgData : ∀ (v : MsgData), WFMsgData v →
    decodeMsgData (encodeMsgData v) = .ok v
  | .Raw body is, h => by
    obtain ⟨h1, h2⟩ := h
    show (decodeBytes (encodeBytes body) >>= fun b2 =>
        decodeBytes (encodeBytes is) >>= fun i2 =>
        Except.ok (MsgData.Raw b2 i2)) = .ok (.Raw body is)
    rw [round_bytes h1, ok_bind, round_bytes h2]
    rfl
  | .Text t, h => by
    show (decodeBytes (encodeBytes t) >>= fun t2 => Except.ok (MsgData.Text t2)) =
      .ok (.Text t)
    rw [round_bytes h]
    rfl
  | .DecryptedText t, h => by
    show (decodeBytes (encodeBytes t) >>= fun t2 => Except.ok (MsgData.DecryptedText t2)) =
      .ok (.DecryptedText t)
    rw [round_bytes h]
    rfl
  | .EncryptedText t, h => by
    show (decodeBytes (encodeBytes t) >>= fun t2 => Except.ok (MsgData.EncryptedText t2)) =
      .ok (.EncryptedText t)
    rw [round_bytes h]
    rfl

theorem round_itid (id : InternalTransactionId) (h : WFITId id) :
    decodeInternalTransactionId (encodeInternalTransactionId id) = .ok id := by
  obtain ⟨h1, h2⟩ := h
  show (numberFromString (.num id.lt) >>= fun lt =>
      decodeBytes (encodeBytes id.hash) >>= fun hs =>
      Except.ok (InternalTransactionId.mk lt hs)) = .ok id
  rw [round_num h1, ok_bind, round_bytes h2]
  rfl

theorem round_rawMessage (m : RawMessage) (h : WFRawMessage m) :
    decodeRawMessage (encodeRawMessage m) = .ok m := by
  obtain ⟨h1, h2, h3, h4, h5, h6⟩ := h
  show (numberFromString (.num m.value) >>= fun v =>
      numberFromString (.num m.fwd_fee) >>= fun ff =>
      numberFromString (.num m.ihr_fee) >>= fun ihr =>
      numberFromString (.num m.created_lt) >>= fun cl =>
      decodeBytes (encodeBytes m.body_hash) >>= fun bh =>
      decodeMsgData (encodeMsgData m.msg_data) >>= fun md =>
      Except.ok (RawMessage.mk m.source m.destination v ff ihr cl bh md)) = .ok m
  rw [round_num h1, ok_bind, round_num h2, ok_bind, round_num h3, ok_bind,
    round_num h4, ok_bind, round_bytes h5, ok_bind, round_msgData m.msg_data h6]
  rfl

theorem round_list {α : Type} (f : Json → Except DErr α) (g : α → Json) :
    ∀ (xs : List α), (∀ x ∈ xs, f (g x) = .ok x) → decodeList f (xs.map g) = .ok xs
  | [], _ => rfl
  | x :: rest, h => by
    have hx := h x (List.mem_cons_self x rest)
    have hr := round_list f g rest (fun y hy => h y (List.mem_cons_of_mem x hy))
    show (f (g x) >>= fun a =>
        decodeList f (rest.map g) >>= fun r => Except.ok (a :: r)) = .ok (x :: rest)
    rw [hx, ok_bind, hr]
    rfl

theorem round_rawTransaction (t : RawTransaction) (h : WFRawTransaction t) :
    decodeRawTransaction (encodeRawTransaction t) = .ok t := by
  obtain ⟨u, d, tid, sf, ofee, im, om⟩ := t
  obtain ⟨h1, h2, h3, h4, h5, h6, h7⟩ := h
  have hlist := round_list decodeRawMessage encodeRawMessage om
    (fun x hx => round_rawMessage x (h7 x hx))
  cases im with
  | none =>
    show (numberFromString (.num u) >>= fun u2 =>
        decodeBytes (encodeBytes d) >>= fun d2 =>
        decodeInternalTransactionId (encodeInternalTransactionId tid) >>= fun tid2 =>
        numberFromString (.num sf) >>= fun sf2 =>
        numberFromString (.num ofee) >>= fun o2 =>
        decodeList decodeRawMessage (om.map encodeRawMessage) >>= fun om2 =>
        Except.ok (RawTransaction.mk u2 d2 tid2 sf2 o2 none om2)) =
      .ok (RawTransaction.mk u d tid sf ofee none om)
    rw [round_num h1, ok_bind, round_bytes h2, ok_bind, round_itid tid h3, ok_bind,
      round_num h4, ok_bind, round_num h5, ok_bind, hlist]
    rfl
  | some m =>
    have hmsg : decodeSomeField decodeRawMessage (encodeRawMessage m) = .ok (some m) := by
      unfold decodeSomeField
      rw [round_rawMessage m h6]
    show (numberFromString (.num u) >>= fun u2 =>
        decodeBytes (encodeBytes d) >>= fun d2 =>
        decodeInternalTransactionId (encodeInternalTransactionId tid) >>= fun tid2 =>
        numberFromString (.num sf) >>= fun sf2 =>
        numberFromString (.num ofee) >>= fun o2 =>
        decodeSomeField decodeRawMessage (encodeRawMessage m) >>= fun im2 =>
        decodeList decodeRawMessage (om.map encodeRawMessage) >>= fun om2 =>
        Except.ok (RawTransaction.mk u2 d2 tid2 sf2 o2 im2 om2)) =
      .ok (RawTransaction.mk u d tid sf ofee (some m) om)
    rw [round_num h1, ok_bind, round_bytes h2, ok_bind, round_itid tid h3, ok_bind,
      round_num h4, ok_bind, round_num h5, ok_bind, hmsg, hlist]
    rfl

/-- C10: encoding a RawTransaction omits the in_msg key entirely when
in_msg is none, emits it when in_msg is some, and decoding the encoded
output returns the original transaction in both cases. -/
theorem C10_raw_transaction (t : RawTransaction) (h : WFRawTransaction t) :
    (t.in_msg = none → (encodeRawTransaction t).getField "in_msg" = none ∧
      (encodeRawTransaction t).keys =
        ["utime", "data", "transaction_id", "storage_fee", "other_fee", "out_msgs"]) ∧
    (∀ m, t.in_msg = some m → (encodeRawTransaction t).getField "in_msg" =
        some (encodeRawMessage m) ∧
      (encodeRawTransaction t).keys =
        ["utime", "data", "transaction_id", "storage_fee", "other_fee", "in_msg",
          "out_msgs"]) ∧
    decodeRawTransaction (encodeRawTransaction t) = .ok t := by
  refine ⟨?_, ?_, round_rawTransaction t h⟩
  · intro hn
    obtain ⟨u, d, tid, sf, ofee, im, om⟩ := t
    subst hn
    exact ⟨rfl, rfl⟩
  · intro m hm
    obtain ⟨u, d, tid, sf, ofee, im, om⟩ := t
    subst hm
    exact ⟨rfl, rfl⟩

/-- C10 witness: a concrete transaction without in_msg round-trips and its
encoding has no in_msg key. -/
theorem C10_witness :
    decodeRawTransaction (encodeRawTransaction ⟨1, [2], ⟨3, [4]⟩, 5, 6, none, []⟩) =
      .ok ⟨1, [2], ⟨3, [4]⟩, 5, 6, none, []⟩ :=
  (C10_raw_transaction ⟨1, [2], ⟨3, [4]⟩, 5, 6, none, []⟩
    ⟨by decide, by decide, ⟨by decide, by decide⟩, by decide, by decide, trivial,
      by simp⟩).2.2
